import Mathlib

/-
Formal model of the GorAI MCP TestHelper repository: the tool-registry RPC
server (mcp_server.py) and the streaming tool-call orchestrator / session
store of the web backend (app.py).  Every definition below is a shallow
embedding of the corresponding Python function; theorems settle the frozen
claims about them.
-/

set_option autoImplicit false

namespace GorAI

/-- Decoded JSON values, as produced by Python's `json.loads`.  Objects keep
their fields in insertion order, mirroring Python dicts. -/
inductive Json where
  | null
  | bool (b : Bool)
  | num (n : Int)
  | str (s : String)
  | arr (items : List Json)
  | obj (fields : List (String × Json))
deriving Repr

/-- Structural equality on decoded JSON values (Python `==` restricted to the
shapes the server manipulates). -/
def Json.beq : Json → Json → Bool
  | .null, .null => true
  | .bool a, .bool b => a == b
  | .num a, .num b => a == b
  | .str a, .str b => a == b
  | .arr a, .arr b => beqList a b
  | .obj a, .obj b => beqFields a b
  | _, _ => false
where
  beqList : List Json → List Json → Bool
    | [], [] => true
    | x :: xs, y :: ys => x.beq y && beqList xs ys
    | _, _ => false
  beqFields : List (String × Json) → List (String × Json) → Bool
    | [], [] => true
    | (k, x) :: xs, (l, y) :: ys => k == l && x.beq y && beqFields xs ys
    | _, _ => false

instance : BEq Json := ⟨Json.beq⟩

/-- Python `str()` of a decoded JSON value, as interpolated into the server's
f-string messages.  Only the scalar renderings are relied on by any claim;
container rendering is abbreviated. -/
def pyStr : Json → String
  | .null => "None"
  | .bool true => "True"
  | .bool false => "False"
  | .num n => toString n
  | .str s => s
  | .arr _ => "[...]"
  | .obj _ => "{...}"

/-- Python `d.get(k, default)` on a decoded value: succeeds with the stored
field (first occurrence) or the default on a dict, and raises
(`AttributeError`, modelled as `Except.error`) on any non-dict receiver. -/
def pyGet (j : Json) (k : String) (dflt : Json) : Except String Json :=
  match j with
  | .obj fields => .ok ((fields.lookup k).getD dflt)
  | _ => .error "AttributeError"

/-- One entry of `MCPServer.tools`, as built by `load_tools`: the metadata
dict stored per tool name.  `fn` is the opaque loaded callable; it receives
the `parameters` dict (spread as keyword arguments in the source) and either
returns a value or raises, modelled as `Except` with the exception text. -/
structure ToolEntry where
  name : String
  description : String
  parameters : Json
  package : String
  file_path : String
  fn : Json → Except String Json

/-- Error response envelope, as literally constructed in
`MCPServer.handle_request`. -/
def errorEnvelope (code : Int) (message : String) (rid : Json) : Json :=
  Json.obj [("jsonrpc", Json.str "2.0"),
            ("error", Json.obj [("code", Json.num code), ("message", Json.str message)]),
            ("id", rid)]

/-- Result response envelope, as literally constructed in
`MCPServer.handle_request`. -/
def resultEnvelope (result : Json) (rid : Json) : Json :=
  Json.obj [("jsonrpc", Json.str "2.0"), ("result", result), ("id", rid)]

/-- The per-tool dict put into the `list_tools` response: name, description,
parameters, package and file_path are copied; the `function` field of the
registry entry is not included. -/
def toolListing (t : ToolEntry) : Json :=
  Json.obj [("name", Json.str t.name),
            ("description", Json.str t.description),
            ("parameters", t.parameters),
            ("package", Json.str t.package),
            ("file_path", Json.str t.file_path)]

/-- Whether a decoded JSON value is hashable in Python: decoded lists and
dicts are not, every decoded scalar is. -/
def jsonHashable : Json → Bool
  | .arr _ => false
  | .obj _ => false
  | _ => true

/-- Python `tool_name not in self.tools` followed by `self.tools[tool_name]`:
the registry dict is keyed by strings, so a hashable non-string name is
simply not found, while an unhashable name (a decoded JSON array or object)
makes the membership test itself raise `TypeError`, which escapes to the
outer handler. -/
def lookupTool (tools : List (String × ToolEntry)) (tool_name : Json) :
    Except String (Option ToolEntry) :=
  match tool_name with
  | .str s => .ok (tools.lookup s)
  | .arr _ => .error "unhashable type: list"
  | .obj _ => .error "unhashable type: dict"
  | _ => .ok none

/-- Body of the `try:` block of `MCPServer.handle_request` after a successful
`json.loads`: dispatch on the method, in source order.  An `Except.error`
models an exception escaping to the outer handler. -/
def handleDecoded (tools : List (String × ToolEntry)) (request : Json) :
    Except String Json := do
  let method ← pyGet request "method" Json.null
  let params ← pyGet request "params" (Json.obj [])
  let request_id ← pyGet request "id" Json.null
  if method == Json.str "list_tools" then
    pure (resultEnvelope
      (Json.obj [("tools", Json.arr (tools.map (fun p => toolListing p.2)))]) request_id)
  else if method == Json.str "execute_tool" then do
    let tool_name ← pyGet params "tool_name" Json.null
    let tool_params ← pyGet params "parameters" (Json.obj [])
    let entry_found ← lookupTool tools tool_name
    match entry_found with
    | none =>
        pure (errorEnvelope (-32602) ("工具 " ++ pyStr tool_name ++ " 未找到") request_id)
    | some entry =>
        match entry.fn tool_params with
        | .ok r => pure (resultEnvelope (Json.obj [("output", r)]) request_id)
        | .error e => pure (errorEnvelope (-32603) ("工具执行错误: " ++ e) request_id)
  else
    pure (errorEnvelope (-32601) ("未知方法: " ++ pyStr method) request_id)

/-- `MCPServer.handle_request`: the argument carries the outcome of
`json.loads` on the received frame (`Except.error` for malformed JSON).
A decode failure yields the -32700 envelope; any exception escaping the
dispatch yields the -32603 internal-error envelope, both with a `null` id,
exactly as in the source's two `except` clauses. -/
def handle_request (tools : List (String × ToolEntry))
    (request_data : Except Unit Json) : Json :=
  match request_data with
  | .error _ => errorEnvelope (-32700) "JSON解析错误" Json.null
  | .ok req =>
      match handleDecoded tools req with
      | .ok resp => resp
      | .error e => errorEnvelope (-32603) ("内部错误: " ++ e) Json.null

/-- `MCPServer.handle_client`: the receive loop answers every received frame
with exactly one `handle_request` response and keeps the connection open
(`handle_request` is total, so no exception ever breaks the loop). -/
def handle_client (tools : List (String × ToolEntry))
    (frames : List (Except Unit Json)) : List Json :=
  frames.map (handle_request tools)

/-- Identifier carried by a response envelope (its `id` field). -/
def respId (resp : Json) : Json :=
  match resp with
  | .obj fields => (fields.lookup "id").getD Json.null
  | _ => Json.null

/-- Field names of a JSON object. -/
def jsonKeys : Json → List String
  | .obj fields => fields.map (fun p => p.1)
  | _ => []

/-- A well-formed `execute_tool` request frame as sent by `MCPClient`. -/
def executeToolRequest (tool_name : String) (parameters : Json) (rid : Json) : Json :=
  Json.obj [("method", Json.str "execute_tool"),
            ("params", Json.obj [("tool_name", Json.str tool_name),
                                 ("parameters", parameters)]),
            ("id", rid)]

/-- A well-formed `list_tools` request frame as sent by `MCPClient`. -/
def listToolsRequest (rid : Json) : Json :=
  Json.obj [("method", Json.str "list_tools"), ("id", rid)]

/-- A partially or fully accumulated tool call: one entry of the `tool_info`
list of `WebServer.stream_chat_response`, also used as the descriptor sent to
the frontend and stored on the assistant message.  A field that was never
delivered is the empty string: the source guards every concatenation with
Python truthiness (`if tool_call.id:`), so a stored field is never empty and
the missing-key state of the Python dict coincides with `""`. -/
structure ToolCallInfo where
  id : String
  name : String
  arguments : String
deriving DecidableEq, Repr

/-- One message of a conversation history, covering the role/content shapes
that app.py builds. -/
inductive Msg where
  | system (content : String)
  | user (content : String)
  | assistant (content : String) (tool_calls : List ToolCallInfo)
  | tool (tool_call_id : String) (content : String)
deriving DecidableEq, Repr

/-- One value of `WebServer.chat_sessions`: the per-session record.
Timestamps are abstracted to integers. -/
structure Session where
  messages : List Msg
  created_at : Int
  last_activity : Int
deriving DecidableEq, Repr

/-- Mutation of the record stored under one key of the session dict
(`self.chat_sessions[sid]['field'] = ...` in the source). -/
def update_session (store : List (String × Session)) (sid : String)
    (g : Session → Session) : List (String × Session) :=
  store.map (fun p => if p.1 = sid then (p.1, g p.2) else p)

/-- `WebServer.get_or_create_session`.  `fresh_id` models the
`str(uuid.uuid4())` that would be drawn if one is needed, `now` the current
time.  A falsy argument (absent, or the empty string) is replaced by the
fresh identifier; then an unknown identifier gets a fresh empty record and a
known one gets its `last_activity` refreshed.  Returns the session id
together with the updated store. -/
def get_or_create_session (fresh_id : String) (now : Int)
    (chat_sessions : List (String × Session)) (session_id : Option String) :
    String × List (String × Session) :=
  let sid : String :=
    match session_id with
    | none => fresh_id
    | some s => if s = "" then fresh_id else s
  match chat_sessions.lookup sid with
  | none => (sid, chat_sessions ++ [(sid, ⟨[], now, now⟩)])
  | some _ =>
      (sid, update_session chat_sessions sid (fun s => { s with last_activity := now }))

/-- `WebServer.clean_expired_sessions`: collect the ids whose inactivity
exceeds the timeout, then delete each collected id from the store. -/
def clean_expired_sessions (session_timeout now : Int)
    (chat_sessions : List (String × Session)) : List (String × Session) :=
  let expired_sessions :=
    (chat_sessions.filter (fun p => session_timeout < now - p.2.last_activity)).map
      (fun p => p.1)
  expired_sessions.foldl
    (fun store sid => store.filter (fun p => p.1 ≠ sid)) chat_sessions

/-- The `/api/chat/clear` route handler `clear_chat`: when the id is truthy
and known, reset that session's `messages` to empty (leaving the identifier
and both timestamps in place) and report success; otherwise leave the store
alone and report failure (the 404 branch). -/
def clear_chat (chat_sessions : List (String × Session))
    (session_id : Option String) : List (String × Session) × Bool :=
  match session_id with
  | some s =>
      if s ≠ "" ∧ (chat_sessions.lookup s).isSome then
        (update_session chat_sessions s (fun sess => { sess with messages := [] }), true)
      else (chat_sessions, false)
  | none => (chat_sessions, false)

/-- `session['messages'].append(m)` on the session stored under `sid`. -/
def append_session_message (chat_sessions : List (String × Session))
    (sid : String) (m : Msg) : List (String × Session) :=
  update_session chat_sessions sid (fun s => { s with messages := s.messages ++ [m] })

/-- One tool-call delta fragment delivered by the model stream: a positional
index plus optional pieces of the id, the function name and the arguments
text.  A piece that is absent (Python `None`) or empty is the empty string;
the source treats both identically through truthiness guards. -/
structure ToolFragment where
  index : Nat
  id : String
  name : String
  arguments : String
deriving DecidableEq, Repr

/-- The empty accumulator record (`{}` freshly appended by the
`while len(tool_info) <= index` loop). -/
def emptyToolCall : ToolCallInfo := ⟨"", "", ""⟩

/-- `tool_info[index]['f'] = tool_info[index].get('f', '') + piece`, guarded
by `if piece:` in the source. -/
def addFragmentField (cur piece : String) : String :=
  if piece = "" then cur else cur ++ piece

/-- Application of one fragment's pieces to one accumulator record. -/
def applyPieces (c : ToolCallInfo) (f : ToolFragment) : ToolCallInfo :=
  ⟨addFragmentField c.id f.id,
   addFragmentField c.name f.name,
   addFragmentField c.arguments f.arguments⟩

/-- The accumulator step for a single `tool_call` delta in
`WebServer.stream_chat_response`: grow the list with empty records until the
index is in range, then concatenate each delivered piece onto the record at
that index. -/
def applyFragment (tool_info : List ToolCallInfo) (f : ToolFragment) :
    List ToolCallInfo :=
  let ti := tool_info ++ List.replicate (f.index + 1 - tool_info.length) emptyToolCall
  ti.set f.index (applyPieces (ti.getD f.index emptyToolCall) f)

/-- Reassembly of a whole stream segment: the accumulator starts empty and
processes the fragments in arrival order. -/
def accumulate_tool_calls (frags : List ToolFragment) : List ToolCallInfo :=
  frags.foldl applyFragment []

/-- Fragments of a sequence that target index `i`, in arrival order. -/
def fragmentsAt (frags : List ToolFragment) (i : Nat) : List ToolFragment :=
  frags.filter (fun f => f.index = i)

/-- One more than the largest index any fragment targets (0 when there are no
fragments). -/
def maxIndexBound (frags : List ToolFragment) : Nat :=
  frags.foldl (fun n f => max n (f.index + 1)) 0

/-- In-order concatenation of delivered pieces of one field. -/
def fieldConcat (l : List String) : String := l.foldl (fun a b => a ++ b) ""

/-- The equivalent single-piece delivery of a fragment sequence: for each
index in range, one fragment carrying the full concatenated id, name and
arguments text, delivered in index order. -/
def singlePieceDelivery (frags : List ToolFragment) : List ToolFragment :=
  (List.range (maxIndexBound frags)).map (fun i =>
    ⟨i, fieldConcat ((fragmentsAt frags i).map (fun f => f.id)),
        fieldConcat ((fragmentsAt frags i).map (fun f => f.name)),
        fieldConcat ((fragmentsAt frags i).map (fun f => f.arguments))⟩)

/-- Error text substituted as a failed call's result content
(`f"工具执行错误: {str(e)}"`). -/
def tool_error_content (e : String) : String := "工具执行错误: " ++ e

/-- The `for i in range(len(tool_info))` execution loop of
`WebServer.stream_chat_response`, one recursive step per accumulated call.

`exec_tool` models `self.mcp_client.execute_tool` followed by `str(...)` on
its result (`Except.error` when the call raises); `parse_args` models
`json.loads` on the accumulated arguments text.  `bound` carries the values
the Python locals `tool_name` / `tool_call_id` hold from the last iteration
that assigned them: the source's `except` branch reads them after a
`json.loads` failure, so before any iteration has bound them that branch
raises `UnboundLocalError`, which escapes the generator — modelled as
`Except.error ()`.  On success the step appends the call's descriptor to the
assistant message's `tool_calls` (successful calls only, as in the source)
and exactly one role-`tool` message to the local history. -/
def execute_tool_calls (exec_tool : String → Json → Except String String)
    (parse_args : String → Except String Json) :
    List ToolCallInfo → Option (String × String) → List ToolCallInfo →
    List Msg → Except Unit (List ToolCallInfo × List Msg)
  | [], _, descs, toolMsgs => .ok (descs, toolMsgs)
  | c :: rest, bound, descs, toolMsgs =>
    match parse_args c.arguments with
    | .error e =>
        match bound with
        | none => .error ()
        | some (_, prev_id) =>
            execute_tool_calls exec_tool parse_args rest bound descs
              (toolMsgs ++ [Msg.tool prev_id (tool_error_content e)])
    | .ok args =>
        match exec_tool c.name args with
        | .ok result =>
            execute_tool_calls exec_tool parse_args rest (some (c.name, c.id))
              (descs ++ [c]) (toolMsgs ++ [Msg.tool c.id result])
        | .error e =>
            execute_tool_calls exec_tool parse_args rest (some (c.name, c.id))
              descs (toolMsgs ++ [Msg.tool c.id (tool_error_content e)])

/-- Execution of one accumulated batch, starting with no bound locals, no
descriptors and no tool messages. -/
def execute_batch (exec_tool : String → Json → Except String String)
    (parse_args : String → Except String Json)
    (tool_info : List ToolCallInfo) :
    Except Unit (List ToolCallInfo × List Msg) :=
  execute_tool_calls exec_tool parse_args tool_info none [] []

/-- The `tool_calls_for_frontend` build succeeds: it reads `tool["id"]`,
`tool["name"]` and `tool["arguments"]` of every accumulated record, raising
`KeyError` when a key was never set — and a set key is never the empty
string (the truthiness guards), so a missing key coincides with an empty
field of the model. -/
def complete_records (tool_info : List ToolCallInfo) : Bool :=
  tool_info.all (fun c => c.id != "" && c.name != "" && c.arguments != "")

/-- One iteration of the `while len(tool_info) > 0` loop: build the assistant
message (reasoning text when no answer text was produced), build the
frontend descriptors (a `KeyError` on an incomplete record escapes the
generator and aborts the turn), execute the batch, and return the local
message list that the follow-up `chat.completions.create` call receives —
`none` when the iteration crashes the generator. -/
def tool_loop_iteration (exec_tool : String → Json → Except String String)
    (parse_args : String → Except String Json)
    (reasoning_content answer_content : String)
    (localMessages : List Msg) (tool_info : List ToolCallInfo) :
    Option (List Msg) :=
  let content := if answer_content = "" then reasoning_content else answer_content
  if complete_records tool_info then
    match execute_batch exec_tool parse_args tool_info with
    | .ok (descs, toolMsgs) =>
        some (localMessages ++ [Msg.assistant content descs] ++ toolMsgs)
    | .error _ => none
  else none

/-- Result content of one call when every call's arguments text parses: the
tool's own result, or the substituted failure text when the call raises. -/
def call_result_content (exec_tool : String → Json → Except String String)
    (parse_args : String → Except String Json) (c : ToolCallInfo) : String :=
  match parse_args c.arguments with
  | .error e => tool_error_content e
  | .ok args =>
      match exec_tool c.name args with
      | .ok r => r
      | .error e => tool_error_content e

/-- Whether a call parses and executes without raising (its descriptor is
then recorded on the assistant message). -/
def call_succeeded (exec_tool : String → Json → Except String String)
    (parse_args : String → Except String Json) (c : ToolCallInfo) : Bool :=
  match parse_args c.arguments with
  | .error _ => false
  | .ok args =>
      match exec_tool c.name args with
      | .ok _ => true
      | .error _ => false

/-- Field stored under a key of a JSON object, `none` on any other shape. -/
def jsonField (j : Json) (k : String) : Option Json :=
  match j with
  | .obj fields => fields.lookup k
  | _ => none

section StoreLemmas

variable {β : Type}

/-- Updating the value stored under one key commutes with lookup. -/
lemma lookup_map_update (l : List (String × β)) (k : String) (g : β → β) :
    (l.map (fun p => if p.1 = k then (p.1, g p.2) else p)).lookup k =
      (l.lookup k).map g := by
  induction l with
  | nil => rfl
  | cons hd tl ih =>
      cases hd with
      | mk a b =>
          by_cases h : a = k
          · have hk : (k == a) = true := beq_iff_eq.mpr h.symm
            simp [List.lookup_cons, h, hk]
          · have hk : (k == a) = false :=
              beq_eq_false_iff_ne.mpr (fun hh => h hh.symm)
            simp [List.lookup_cons, h, hk, ih]

/-- A per-key value update leaves the key sequence unchanged. -/
lemma keys_map_update (l : List (String × β)) (k : String) (g : β → β) :
    (l.map (fun p => if p.1 = k then (p.1, g p.2) else p)).map Prod.fst =
      l.map Prod.fst := by
  induction l with
  | nil => rfl
  | cons hd tl ih =>
      by_cases h : hd.1 = k <;> simp_all

end StoreLemmas

lemma lookup_update_session (store : List (String × Session)) (k : String)
    (g : Session → Session) :
    (update_session store k g).lookup k = (store.lookup k).map g :=
  lookup_map_update store k g

lemma keys_update_session (store : List (String × Session)) (k : String)
    (g : Session → Session) :
    (update_session store k g).map Prod.fst = store.map Prod.fst :=
  keys_map_update store k g

@[simp] lemma beq_str_str (a b : String) : (Json.str a == Json.str b) = (a == b) := rfl

/-- Response of `handle_request` to a well-formed `execute_tool` frame, by
the registry lookup and the callable's outcome. -/
lemma handle_request_executeToolRequest (tools : List (String × ToolEntry))
    (t : String) (params rid : Json) :
    handle_request tools (Except.ok (executeToolRequest t params rid)) =
      match tools.lookup t with
      | none => errorEnvelope (-32602) ("工具 " ++ t ++ " 未找到") rid
      | some entry =>
          match entry.fn params with
          | .ok r => resultEnvelope (Json.obj [("output", r)]) rid
          | .error e => errorEnvelope (-32603) ("工具执行错误: " ++ e) rid := by
  cases h : tools.lookup t with
  | none =>
      simp [handle_request, handleDecoded, executeToolRequest, pyGet, lookupTool,
            List.lookup, h, pyStr, bind, Except.bind, pure, Except.pure]
  | some entry =>
      cases hf : entry.fn params <;>
      simp [handle_request, handleDecoded, executeToolRequest, pyGet, lookupTool,
            List.lookup, h, hf, pyStr, bind, Except.bind, pure, Except.pure]

/-- Response of `handle_request` to a well-formed `list_tools` frame. -/
lemma handle_request_listToolsRequest (tools : List (String × ToolEntry)) (rid : Json) :
    handle_request tools (Except.ok (listToolsRequest rid)) =
      resultEnvelope
        (Json.obj [("tools", Json.arr (tools.map (fun p => toolListing p.2)))]) rid := by
  simp [handle_request, handleDecoded, listToolsRequest, pyGet,
        List.lookup, bind, Except.bind, pure, Except.pure]

/-- C1.  The claim as written fails: a supplied-but-unknown session id is
kept, no fresh identifier is drawn for it.  Witness of the failure:
`get_or_create_session` called on an empty store with the unknown id
`"abc"` (and a fresh uuid available) returns `"abc"`, not the fresh
identifier. -/
theorem get_or_create_session_unknown_id_reused :
    (get_or_create_session "123e4567-e89b-12d3-a456-426614174000" 0 []
        (some "abc")).1 = "abc" ∧
      "abc" ≠ "123e4567-e89b-12d3-a456-426614174000" :=
  ⟨rfl, by decide⟩

/-- C1 (amended).  `get_or_create_session`: a falsy id (absent) is replaced
by a fresh identifier and, when that identifier is unknown, an empty history
is created under it; a supplied unknown id is kept and gets an empty history
under the supplied id; a known id is returned unchanged with its
`last_activity` refreshed. -/
theorem get_or_create_session_cases (fresh_id : String) (now : Int)
    (store : List (String × Session)) (sid : String) (hs : sid ≠ "") :
    (store.lookup fresh_id = none →
        get_or_create_session fresh_id now store none =
          (fresh_id, store ++ [(fresh_id, ⟨[], now, now⟩)])) ∧
    (store.lookup sid = none →
        get_or_create_session fresh_id now store (some sid) =
          (sid, store ++ [(sid, ⟨[], now, now⟩)])) ∧
    (∀ sess, store.lookup sid = some sess →
        get_or_create_session fresh_id now store (some sid) =
          (sid, update_session store sid (fun s => { s with last_activity := now }))) := by
  refine ⟨fun h => ?_, fun h => ?_, fun sess h => ?_⟩ <;>
    simp [get_or_create_session, hs, h]

/-- Witness for C1's amended theorem at a concrete input: a store holding one
known session, queried with the unknown id `"abc"`. -/
theorem get_or_create_session_cases_witness :
    get_or_create_session "FRESH" 5 [("known", ⟨[], 1, 2⟩)] (some "abc") =
      ("abc", [("known", ⟨[], 1, 2⟩), ("abc", ⟨[], 5, 5⟩)]) :=
  (get_or_create_session_cases "FRESH" 5 [("known", ⟨[], 1, 2⟩)] "abc"
    (by decide)).2.1 rfl

@[simp] lemma respId_errorEnvelope (code : Int) (msg : String) (rid : Json) :
    respId (errorEnvelope code msg rid) = rid := rfl

@[simp] lemma respId_resultEnvelope (r rid : Json) :
    respId (resultEnvelope r rid) = rid := rfl

lemma eq_str_of_beq {j : Json} {s : String} (h : (j == Json.str s) = true) :
    j = Json.str s := by
  cases j <;> simp_all [BEq.beq, Json.beq]

/-- C3.  The claim as written fails: the outer exception handler of
`handle_request` hard-codes a `null` id.  A well-formed-JSON frame with
id `7` whose `params` field is the number `5` makes `params.get('tool_name')`
raise, and the resulting internal-error envelope carries `null`, not `7`. -/
theorem handle_request_internal_error_null_id :
    respId (handle_request [] (Except.ok (Json.obj
        [("method", Json.str "execute_tool"), ("params", Json.num 5),
         ("id", Json.num 7)]))) = Json.null ∧
      Json.null ≠ Json.num 7 :=
  ⟨rfl, fun h => Json.noConfusion h⟩

lemma lookupTool_ok_of_hashable (tools : List (String × ToolEntry)) {j : Json}
    (h : jsonHashable j = true) : ∃ o, lookupTool tools j = Except.ok o := by
  cases j <;> first
    | exact ⟨_, rfl⟩
    | simp [jsonHashable] at h

/-- C3 (amended).  Every response produced by the three dispatch branches of
`handle_request` (`list_tools`, `execute_tool` with a dict `params` and a
hashable `tool_name`, unknown method) carries the id of the request frame
that produced it; only the responses of the outer internal-error handler
(non-dict `params`, or an unhashable `tool_name` whose membership test
raises `TypeError`) and of the parse-error handler carry `null` instead. -/
theorem handle_request_echoes_request_id (tools : List (String × ToolEntry))
    (fs : List (String × Json))
    (h : (fs.lookup "method").getD Json.null = Json.str "execute_tool" →
         ∃ pfs, (fs.lookup "params").getD (Json.obj []) = Json.obj pfs ∧
           jsonHashable ((pfs.lookup "tool_name").getD Json.null) = true) :
    respId (handle_request tools (Except.ok (Json.obj fs))) =
      (fs.lookup "id").getD Json.null := by
  unfold handle_request handleDecoded
  simp only [pyGet, bind, Except.bind]
  cases h1 : ((fs.lookup "method").getD Json.null == Json.str "list_tools") with
  | true => simp [h1, pure, Except.pure]
  | false =>
      cases h2 : ((fs.lookup "method").getD Json.null == Json.str "execute_tool") with
      | false => simp [h1, h2, pure, Except.pure]
      | true =>
          obtain ⟨pfs, hp, hhash⟩ := h (eq_str_of_beq h2)
          obtain ⟨entry_found, hl⟩ := lookupTool_ok_of_hashable tools hhash
          simp only [h1, h2, Bool.false_eq_true, if_false, if_true, hp, hl]
          cases entry_found with
          | none => simp [pure, Except.pure]
          | some entry =>
              cases hf : entry.fn ((pfs.lookup "parameters").getD (Json.obj [])) <;>
                simp [hf, pure, Except.pure]

/-- Witness for C3's amended theorem: a concrete `execute_tool` frame with
id `9` on an empty registry is answered with id `9`. -/
theorem handle_request_echoes_request_id_witness :
    respId (handle_request []
        (Except.ok (Json.obj [("method", Json.str "execute_tool"),
          ("params", Json.obj [("tool_name", Json.str "add")]),
          ("id", Json.num 9)]))) =
      ((([("method", Json.str "execute_tool"),
          ("params", Json.obj [("tool_name", Json.str "add")]),
          ("id", Json.num 9)] : List (String × Json)).lookup "id").getD Json.null) :=
  handle_request_echoes_request_id [] _
    (fun _ => ⟨[("tool_name", Json.str "add")], rfl, rfl⟩)

/-- C6.  An `execute_tool` frame naming an unregistered tool is answered with
a `-32602` envelope whose message contains the `未找到` not-found text, and
the very next frame on the same connection is served normally. -/
theorem execute_tool_unknown_then_usable (tools : List (String × ToolEntry))
    (t : String) (params rid1 rid2 : Json) (h : tools.lookup t = none) :
    handle_client tools
        [Except.ok (executeToolRequest t params rid1),
         Except.ok (listToolsRequest rid2)] =
      [errorEnvelope (-32602) ("工具 " ++ t ++ " 未找到") rid1,
       resultEnvelope
         (Json.obj [("tools", Json.arr (tools.map (fun p => toolListing p.2)))]) rid2] ∧
    ∃ pre suf, "工具 " ++ t ++ " 未找到" = pre ++ ("未找到" ++ suf) := by
  constructor
  · simp only [handle_client, List.map_cons, List.map_nil,
      handle_request_executeToolRequest, handle_request_listToolsRequest, h]
  · refine ⟨"工具 " ++ t ++ " ", "", ?_⟩
    rw [String.append_empty]
    simp only [String.append_assoc]
    rw [show (" " : String) ++ "未找到" = " 未找到" by decide]

/-- Witness for C6 at a concrete input: the name `"nosuch"` on the empty
registry, followed by a `list_tools` call. -/
theorem execute_tool_unknown_then_usable_witness :
    handle_client []
        [Except.ok (executeToolRequest "nosuch" (Json.obj []) (Json.num 1)),
         Except.ok (listToolsRequest (Json.num 2))] =
      [errorEnvelope (-32602) ("工具 " ++ "nosuch" ++ " 未找到") (Json.num 1),
       resultEnvelope (Json.obj [("tools", Json.arr [])]) (Json.num 2)] ∧
    ∃ pre suf, "工具 " ++ "nosuch" ++ " 未找到" = pre ++ ("未找到" ++ suf) :=
  execute_tool_unknown_then_usable [] "nosuch" (Json.obj []) (Json.num 1)
    (Json.num 2) rfl

/-- C7.  An exception raised by a registered tool's callable is caught at the
registry boundary and turned into a `-32603` envelope carrying the original
exception text — `handle_request` is total, so nothing propagates. -/
theorem tool_exception_converted (tools : List (String × ToolEntry))
    (t : String) (entry : ToolEntry) (params rid : Json) (e : String)
    (hl : tools.lookup t = some entry) (hf : entry.fn params = Except.error e) :
    handle_request tools (Except.ok (executeToolRequest t params rid)) =
      errorEnvelope (-32603) ("工具执行错误: " ++ e) rid := by
  rw [handle_request_executeToolRequest, hl]
  simp [hf]

/-- Witness for C7: a registry with one tool whose callable always raises
`"boom"`. -/
theorem tool_exception_converted_witness :
    handle_request
        [("add", ⟨"add", "加法", Json.obj [], "calculator", "tools/calculator.py",
           fun _ => Except.error "boom"⟩)]
        (Except.ok (executeToolRequest "add" (Json.obj []) (Json.num 1))) =
      errorEnvelope (-32603) ("工具执行错误: " ++ "boom") (Json.num 1) :=
  tool_exception_converted _ "add" _ (Json.obj []) (Json.num 1) "boom" rfl rfl

/-- C10.  The `list_tools` response lists every registry entry with exactly
the fields name, description, parameters, package and file_path — the
server-side path of the plugin file — and without the callable. -/
theorem list_tools_response_fields (tools : List (String × ToolEntry)) (rid : Json) :
    handle_request tools (Except.ok (listToolsRequest rid)) =
      resultEnvelope
        (Json.obj [("tools", Json.arr (tools.map (fun p => toolListing p.2)))]) rid ∧
    ∀ p ∈ tools,
      jsonKeys (toolListing p.2) =
        ["name", "description", "parameters", "package", "file_path"] ∧
      jsonField (toolListing p.2) "file_path" = some (Json.str p.2.file_path) := by
  refine ⟨handle_request_listToolsRequest tools rid, fun p _ => ⟨rfl, rfl⟩⟩

/-- Witness for C10 at a concrete one-tool registry. -/
theorem list_tools_response_fields_witness :
    handle_request
        [("add", ⟨"add", "加法", Json.obj [], "calculator", "tools/calculator.py",
           fun _ => Except.ok Json.null⟩)]
        (Except.ok (listToolsRequest (Json.num 2))) =
      resultEnvelope
        (Json.obj [("tools", Json.arr
          [toolListing ⟨"add", "加法", Json.obj [], "calculator",
             "tools/calculator.py", fun _ => Except.ok Json.null⟩])]) (Json.num 2) ∧
    ∀ p ∈ ([("add", ⟨"add", "加法", Json.obj [], "calculator", "tools/calculator.py",
           fun _ => Except.ok Json.null⟩)] : List (String × ToolEntry)),
      jsonKeys (toolListing p.2) =
        ["name", "description", "parameters", "package", "file_path"] ∧
      jsonField (toolListing p.2) "file_path" = some (Json.str p.2.file_path) :=
  list_tools_response_fields _ (Json.num 2)

lemma lookup_foldl_append_messages (msgs : List Msg) :
    ∀ (store : List (String × Session)) (sid : String),
      (msgs.foldl (fun st m => append_session_message st sid m) store).lookup sid =
        (store.lookup sid).map (fun s => { s with messages := s.messages ++ msgs }) := by
  induction msgs with
  | nil =>
      intro store sid
      simp only [List.foldl_nil, List.append_nil]
      cases store.lookup sid <;> rfl
  | cons m ms ih =>
      intro store sid
      simp only [List.foldl_cons]
      rw [ih]
      unfold append_session_message
      rw [lookup_update_session]
      cases store.lookup sid with
      | none => rfl
      | some s => simp

lemma keys_foldl_append_messages (msgs : List Msg) :
    ∀ (store : List (String × Session)) (sid : String),
      (msgs.foldl (fun st m => append_session_message st sid m) store).map Prod.fst =
        store.map Prod.fst := by
  induction msgs with
  | nil => intro store sid; rfl
  | cons m ms ih =>
      intro store sid
      simp only [List.foldl_cons]
      rw [ih]
      unfold append_session_message
      exact keys_update_session store sid _

/-- C8.  Appending any run of messages to a known session and then clearing
it leaves an empty message list under the same id with both timestamps
untouched, and a `get_or_create_session` on that id afterwards returns the
same id without adding any entry to the store. -/
theorem clear_preserves_id_and_timestamps
    (store : List (String × Session)) (sid : String) (msgs : List Msg)
    (sess : Session) (fresh_id : String) (now : Int)
    (hs : sid ≠ "") (hl : store.lookup sid = some sess) :
    (clear_chat (msgs.foldl (fun st m => append_session_message st sid m) store)
        (some sid)).2 = true ∧
    (clear_chat (msgs.foldl (fun st m => append_session_message st sid m) store)
        (some sid)).1.lookup sid =
      some ⟨[], sess.created_at, sess.last_activity⟩ ∧
    (get_or_create_session fresh_id now
        (clear_chat (msgs.foldl (fun st m => append_session_message st sid m) store)
          (some sid)).1 (some sid)).1 = sid ∧
    ((get_or_create_session fresh_id now
        (clear_chat (msgs.foldl (fun st m => append_session_message st sid m) store)
          (some sid)).1 (some sid)).2).map Prod.fst =
      ((clear_chat (msgs.foldl (fun st m => append_session_message st sid m) store)
          (some sid)).1).map Prod.fst := by
  set st2 := msgs.foldl (fun st m => append_session_message st sid m) store with hst2
  have h2 : st2.lookup sid = some { sess with messages := sess.messages ++ msgs } := by
    rw [hst2, lookup_foldl_append_messages, hl]; rfl
  have hcond : sid ≠ "" ∧ (st2.lookup sid).isSome = true := ⟨hs, by rw [h2]; rfl⟩
  have hclear : clear_chat st2 (some sid) =
      (update_session st2 sid (fun sess => { sess with messages := [] }), true) := by
    simp only [clear_chat]
    rw [if_pos hcond]
  rw [hclear]
  have h3 : (update_session st2 sid
      (fun sess => { sess with messages := [] })).lookup sid =
      some ⟨[], sess.created_at, sess.last_activity⟩ := by
    rw [lookup_update_session, h2]
    rfl
  refine ⟨rfl, h3, ?_, ?_⟩
  · simp [get_or_create_session, hs, h3]
  · simp [get_or_create_session, hs, h3, keys_update_session]

/-- Witness for C8 at a concrete input: one stored session `"s1"`, two
appended messages. -/
theorem clear_preserves_id_and_timestamps_witness :
    (clear_chat ([Msg.user "hi", Msg.assistant "yo" []].foldl
        (fun st m => append_session_message st "s1" m)
        [("s1", ⟨[], 1, 2⟩)]) (some "s1")).2 = true ∧
    (clear_chat ([Msg.user "hi", Msg.assistant "yo" []].foldl
        (fun st m => append_session_message st "s1" m)
        [("s1", ⟨[], 1, 2⟩)]) (some "s1")).1.lookup "s1" =
      some ⟨[], (⟨[], 1, 2⟩ : Session).created_at, (⟨[], 1, 2⟩ : Session).last_activity⟩ ∧
    (get_or_create_session "FRESH" 99
        (clear_chat ([Msg.user "hi", Msg.assistant "yo" []].foldl
          (fun st m => append_session_message st "s1" m)
          [("s1", ⟨[], 1, 2⟩)]) (some "s1")).1 (some "s1")).1 = "s1" ∧
    ((get_or_create_session "FRESH" 99
        (clear_chat ([Msg.user "hi", Msg.assistant "yo" []].foldl
          (fun st m => append_session_message st "s1" m)
          [("s1", ⟨[], 1, 2⟩)]) (some "s1")).1 (some "s1")).2).map Prod.fst =
      ((clear_chat ([Msg.user "hi", Msg.assistant "yo" []].foldl
          (fun st m => append_session_message st "s1" m)
          [("s1", ⟨[], 1, 2⟩)]) (some "s1")).1).map Prod.fst :=
  clear_preserves_id_and_timestamps [("s1", ⟨[], 1, 2⟩)] "s1"
    [Msg.user "hi", Msg.assistant "yo" []] ⟨[], 1, 2⟩ "FRESH" 99 (by decide) rfl

lemma foldl_delete_eq_filter {β : Type} (names : List String) :
    ∀ store : List (String × β),
      names.foldl (fun st sid => st.filter (fun p => p.1 ≠ sid)) store =
        store.filter (fun p => p.1 ∉ names) := by
  induction names with
  | nil => intro store; simp
  | cons n ns ih =>
      intro store
      simp only [List.foldl_cons]
      rw [ih, List.filter_filter]
      apply List.filter_congr
      intro x _
      simp [List.mem_cons, not_or, Bool.and_comm]

lemma eq_of_mem_nodup_keys {β : Type} :
    ∀ {l : List (String × β)}, (l.map Prod.fst).Nodup →
      ∀ {p q : String × β}, p ∈ l → q ∈ l → p.1 = q.1 → p = q := by
  intro l
  induction l with
  | nil => intro _ p q hp; cases hp
  | cons a l ih =>
      intro h p q hp hq hk
      simp only [List.map_cons, List.nodup_cons] at h
      rcases List.mem_cons.mp hp with rfl | hp2
      · rcases List.mem_cons.mp hq with rfl | hq2
        · rfl
        · exact absurd (by rw [hk]; exact List.mem_map_of_mem Prod.fst hq2) h.1
      · rcases List.mem_cons.mp hq with rfl | hq2
        · exact absurd (by rw [← hk]; exact List.mem_map_of_mem Prod.fst hp2) h.1
        · exact ih h.2 hp2 hq2 hk

lemma clean_expired_eq_filter (session_timeout now : Int)
    (store : List (String × Session)) (h : (store.map Prod.fst).Nodup) :
    clean_expired_sessions session_timeout now store =
      store.filter (fun p => now - p.2.last_activity ≤ session_timeout) := by
  unfold clean_expired_sessions
  rw [foldl_delete_eq_filter]
  apply List.filter_congr
  intro p hp
  rw [decide_eq_decide]
  constructor
  · intro hnot
    by_contra hgt
    push_neg at hgt
    exact hnot (List.mem_map_of_mem Prod.fst
      (List.mem_filter.mpr ⟨hp, by simpa using hgt⟩))
  · intro hle hmem
    obtain ⟨q, hq, hqp⟩ := List.mem_map.mp hmem
    have hq' := List.mem_filter.mp hq
    have heq : q = p := eq_of_mem_nodup_keys h hq'.1 hp hqp
    have := hq'.2
    rw [heq] at this
    simp at this
    omega

/-- C9.  With distinct keys (always true of the Python dict), the sweep
removes exactly the sessions whose inactivity strictly exceeds the timeout,
and sweeping again at the same instant changes nothing. -/
theorem clean_expired_sessions_exact (session_timeout now : Int)
    (store : List (String × Session)) (h : (store.map Prod.fst).Nodup) :
    clean_expired_sessions session_timeout now store =
      store.filter (fun p => now - p.2.last_activity ≤ session_timeout) ∧
    clean_expired_sessions session_timeout now
        (clean_expired_sessions session_timeout now store) =
      clean_expired_sessions session_timeout now store := by
  have h1 := clean_expired_eq_filter session_timeout now store h
  have hnd : ((store.filter
      (fun p => now - p.2.last_activity ≤ session_timeout)).map Prod.fst).Nodup :=
    List.Nodup.sublist (List.Sublist.map Prod.fst (List.filter_sublist store)) h
  refine ⟨h1, ?_⟩
  rw [h1, clean_expired_eq_filter _ _ _ hnd, List.filter_filter]
  apply List.filter_congr
  intro x _
  simp

/-- Witness for C9: two sessions at time 10000 with timeout 3600, one idle
since 0 (expired) and one active at 9000. -/
theorem clean_expired_sessions_exact_witness :
    clean_expired_sessions 3600 10000 [("a", ⟨[], 0, 0⟩), ("b", ⟨[], 0, 9000⟩)] =
      ([("a", (⟨[], 0, 0⟩ : Session)), ("b", ⟨[], 0, 9000⟩)].filter
        (fun p => 10000 - p.2.last_activity ≤ 3600)) ∧
    clean_expired_sessions 3600 10000
        (clean_expired_sessions 3600 10000 [("a", ⟨[], 0, 0⟩), ("b", ⟨[], 0, 9000⟩)]) =
      clean_expired_sessions 3600 10000 [("a", ⟨[], 0, 0⟩), ("b", ⟨[], 0, 9000⟩)] :=
  clean_expired_sessions_exact 3600 10000
    [("a", ⟨[], 0, 0⟩), ("b", ⟨[], 0, 9000⟩)] (by decide)

lemma execute_tool_calls_ok_shape (exec_tool : String → Json → Except String String)
    (parse_args : String → Except String Json) :
    ∀ (calls : List ToolCallInfo) (bound : Option (String × String))
      (descs0 : List ToolCallInfo) (acc0 : List Msg)
      (descs : List ToolCallInfo) (toolMsgs : List Msg),
      execute_tool_calls exec_tool parse_args calls bound descs0 acc0 =
        .ok (descs, toolMsgs) →
      toolMsgs.length = acc0.length + calls.length ∧
      ∀ m ∈ toolMsgs, m ∈ acc0 ∨ ∃ cid content, m = Msg.tool cid content := by
  intro calls
  induction calls with
  | nil =>
      intro bound descs0 acc0 descs toolMsgs h
      simp only [execute_tool_calls, Except.ok.injEq, Prod.mk.injEq] at h
      obtain ⟨-, rfl⟩ := h
      exact ⟨by simp, fun m hm => Or.inl hm⟩
  | cons c rest ih =>
      intro bound descs0 acc0 descs toolMsgs h
      cases hp : parse_args c.arguments with
      | error e =>
          cases bound with
          | none => simp only [execute_tool_calls, hp] at h; exact absurd h (by simp)
          | some pr =>
              obtain ⟨pn, pid⟩ := pr
              simp only [execute_tool_calls, hp] at h
              obtain ⟨h1, h2⟩ := ih _ _ _ _ _ h
              refine ⟨by simp at h1 ⊢; omega, fun m hm => ?_⟩
              rcases h2 m hm with hin | hex
              · rcases List.mem_append.mp hin with hin2 | hin2
                · exact Or.inl hin2
                · exact Or.inr ⟨pid, tool_error_content e, by simpa using hin2⟩
              · exact Or.inr hex
      | ok args =>
          cases hex : exec_tool c.name args with
          | ok result =>
              simp only [execute_tool_calls, hp, hex] at h
              obtain ⟨h1, h2⟩ := ih _ _ _ _ _ h
              refine ⟨by simp at h1 ⊢; omega, fun m hm => ?_⟩
              rcases h2 m hm with hin | hex2
              · rcases List.mem_append.mp hin with hin2 | hin2
                · exact Or.inl hin2
                · exact Or.inr ⟨c.id, result, by simpa using hin2⟩
              · exact Or.inr hex2
          | error e =>
              simp only [execute_tool_calls, hp, hex] at h
              obtain ⟨h1, h2⟩ := ih _ _ _ _ _ h
              refine ⟨by simp at h1 ⊢; omega, fun m hm => ?_⟩
              rcases h2 m hm with hin | hex2
              · rcases List.mem_append.mp hin with hin2 | hin2
                · exact Or.inl hin2
                · exact Or.inr ⟨c.id, tool_error_content e, by simpa using hin2⟩
              · exact Or.inr hex2

lemma execute_tool_calls_ok_descs (exec_tool : String → Json → Except String String)
    (parse_args : String → Except String Json) :
    ∀ (calls : List ToolCallInfo) (bound : Option (String × String))
      (descs0 : List ToolCallInfo) (acc0 : List Msg)
      (descs : List ToolCallInfo) (toolMsgs : List Msg),
      execute_tool_calls exec_tool parse_args calls bound descs0 acc0 =
        .ok (descs, toolMsgs) →
      descs = descs0 ++ calls.filter (call_succeeded exec_tool parse_args) := by
  intro calls
  induction calls with
  | nil =>
      intro bound descs0 acc0 descs toolMsgs h
      simp only [execute_tool_calls, Except.ok.injEq, Prod.mk.injEq] at h
      obtain ⟨rfl, -⟩ := h
      simp
  | cons c rest ih =>
      intro bound descs0 acc0 descs toolMsgs h
      rw [List.filter_cons]
      cases hp : parse_args c.arguments with
      | error e =>
          cases bound with
          | none => simp only [execute_tool_calls, hp] at h; exact absurd h (by simp)
          | some pr =>
              obtain ⟨pn, pid⟩ := pr
              simp only [execute_tool_calls, hp] at h
              rw [if_neg (by simp [call_succeeded, hp])]
              exact ih _ _ _ _ _ h
      | ok args =>
          cases hex : exec_tool c.name args with
          | ok result =>
              simp only [execute_tool_calls, hp, hex] at h
              rw [if_pos (by simp [call_succeeded, hp, hex])]
              rw [ih _ _ _ _ _ h]
              simp
          | error e =>
              simp only [execute_tool_calls, hp, hex] at h
              rw [if_neg (by simp [call_succeeded, hp, hex])]
              exact ih _ _ _ _ _ h

/-- C2.  The claim as written fails: a failing call's descriptor is dropped
from the assistant message (`assistantMessage["tool_calls"].append` sits
after the `execute_tool` call in the `try` block) while its tool-result
message is still appended.  Concretely: a two-call batch whose second call
raises yields two tool-result messages but an assistant message carrying
only the first call's descriptor, not the batch's descriptors. -/
theorem tool_loop_drops_failed_call_descriptor :
    tool_loop_iteration
        (fun n _ => if n = "add" then Except.ok "5" else Except.error "boom")
        (fun s => if s = "{}" then Except.ok (Json.obj []) else Except.error "bad")
        "thinking" "" [Msg.user "hi"]
        [⟨"c1", "add", "{}"⟩, ⟨"c2", "zzz", "{}"⟩] =
      some [Msg.user "hi",
        Msg.assistant "thinking" [⟨"c1", "add", "{}"⟩],
        Msg.tool "c1" "5", Msg.tool "c2" (tool_error_content "boom")] ∧
    ([⟨"c1", "add", "{}"⟩] : List ToolCallInfo) ≠
      [⟨"c1", "add", "{}"⟩, ⟨"c2", "zzz", "{}"⟩] :=
  ⟨rfl, by decide⟩

/-- C2 (amended).  When every accumulated record is complete (else the
frontend build's `KeyError` aborts the turn) and the batch executes to
completion, the loop iteration passes to the follow-up model request exactly
the previous local history extended by one assistant message — carrying the
descriptors of the successfully executed calls only, a failing call's
descriptor is dropped — followed by one role-`tool` message per executed
call. -/
theorem tool_loop_appends_assistant_and_results
    (exec_tool : String → Json → Except String String)
    (parse_args : String → Except String Json)
    (reasoning_content answer_content : String) (localMessages : List Msg)
    (tool_info descs : List ToolCallInfo) (toolMsgs : List Msg)
    (hc : complete_records tool_info = true)
    (h : execute_batch exec_tool parse_args tool_info =
      Except.ok (descs, toolMsgs)) :
    tool_loop_iteration exec_tool parse_args reasoning_content answer_content
        localMessages tool_info =
      some (localMessages ++
        [Msg.assistant (if answer_content = "" then reasoning_content else answer_content)
          descs] ++ toolMsgs) ∧
    descs = tool_info.filter (call_succeeded exec_tool parse_args) ∧
    toolMsgs.length = tool_info.length ∧
    ∀ m ∈ toolMsgs, ∃ cid content, m = Msg.tool cid content := by
  obtain ⟨h1, h2⟩ :=
    execute_tool_calls_ok_shape exec_tool parse_args tool_info none [] []
      descs toolMsgs h
  have h3 :=
    execute_tool_calls_ok_descs exec_tool parse_args tool_info none [] []
      descs toolMsgs h
  refine ⟨?_, by simpa using h3, by simpa using h1,
    fun m hm => (h2 m hm).resolve_left (by simp)⟩
  simp only [tool_loop_iteration, hc, if_true, h]

/-- Witness for C2's amended theorem: a two-call batch where the second
call's tool raises — one assistant message carrying the successful call's
descriptor and two tool messages are appended, then handed to the follow-up
request. -/
theorem tool_loop_appends_assistant_and_results_witness :
    tool_loop_iteration
        (fun n _ => if n = "add" then Except.ok "5" else Except.error "boom")
        (fun s => if s = "{}" then Except.ok (Json.obj []) else Except.error "bad")
        "thinking" "" [Msg.user "hi"]
        [⟨"c1", "add", "{}"⟩, ⟨"c2", "zzz", "{}"⟩] =
      some ([Msg.user "hi"] ++
        [Msg.assistant (if ("" : String) = "" then "thinking" else "")
          [⟨"c1", "add", "{}"⟩]] ++
        [Msg.tool "c1" "5", Msg.tool "c2" (tool_error_content "boom")]) ∧
    ([⟨"c1", "add", "{}"⟩] : List ToolCallInfo) =
      ([⟨"c1", "add", "{}"⟩, ⟨"c2", "zzz", "{}"⟩] : List ToolCallInfo).filter
        (call_succeeded
          (fun n _ => if n = "add" then Except.ok "5" else Except.error "boom")
          (fun s => if s = "{}" then Except.ok (Json.obj []) else Except.error "bad")) ∧
    ([Msg.tool "c1" "5", Msg.tool "c2" (tool_error_content "boom")]).length =
      ([⟨"c1", "add", "{}"⟩, ⟨"c2", "zzz", "{}"⟩] : List ToolCallInfo).length ∧
    ∀ m ∈ [Msg.tool "c1" "5", Msg.tool "c2" (tool_error_content "boom")],
      ∃ cid content, m = Msg.tool cid content :=
  tool_loop_appends_assistant_and_results
    (fun n _ => if n = "add" then Except.ok "5" else Except.error "boom")
    (fun s => if s = "{}" then Except.ok (Json.obj []) else Except.error "bad")
    "thinking" "" [Msg.user "hi"]
    [⟨"c1", "add", "{}"⟩, ⟨"c2", "zzz", "{}"⟩] [⟨"c1", "add", "{}"⟩]
    [Msg.tool "c1" "5", Msg.tool "c2" (tool_error_content "boom")] rfl rfl

lemma addFragmentField_eq_append (cur piece : String) :
    addFragmentField cur piece = cur ++ piece := by
  unfold addFragmentField
  split
  · rename_i h; rw [h, String.append_empty]
  · rfl

lemma applyPieces_fields (c : ToolCallInfo) (f : ToolFragment) :
    applyPieces c f = ⟨c.id ++ f.id, c.name ++ f.name, c.arguments ++ f.arguments⟩ := by
  unfold applyPieces
  rw [addFragmentField_eq_append, addFragmentField_eq_append,
    addFragmentField_eq_append]

lemma foldl_string_append (l : List String) :
    ∀ a : String, l.foldl (fun x y => x ++ y) a = a ++ fieldConcat l := by
  induction l with
  | nil => intro a; simp [fieldConcat, String.append_empty]
  | cons x xs ih =>
      intro a
      show xs.foldl (fun x y => x ++ y) (a ++ x) = a ++ fieldConcat (x :: xs)
      have hx : fieldConcat (x :: xs) = x ++ fieldConcat xs := by
        show xs.foldl (fun x y => x ++ y) ("" ++ x) = x ++ fieldConcat xs
        rw [String.empty_append, ih]
      rw [ih, hx, String.append_assoc]

lemma fieldConcat_cons (x : String) (l : List String) :
    fieldConcat (x :: l) = x ++ fieldConcat l := by
  show l.foldl (fun x y => x ++ y) ("" ++ x) = x ++ fieldConcat l
  rw [String.empty_append, foldl_string_append]

lemma foldl_applyPieces_eq (l : List ToolFragment) :
    ∀ c : ToolCallInfo,
      l.foldl applyPieces c =
        ⟨c.id ++ fieldConcat (l.map (fun f => f.id)),
         c.name ++ fieldConcat (l.map (fun f => f.name)),
         c.arguments ++ fieldConcat (l.map (fun f => f.arguments))⟩ := by
  induction l with
  | nil => intro c; simp [fieldConcat, String.append_empty]
  | cons f fs ih =>
      intro c
      simp only [List.foldl_cons, List.map_cons]
      rw [ih, applyPieces_fields, fieldConcat_cons, fieldConcat_cons,
        fieldConcat_cons]
      simp [String.append_assoc]

lemma length_applyFragment (ti : List ToolCallInfo) (f : ToolFragment) :
    (applyFragment ti f).length = max ti.length (f.index + 1) := by
  simp only [applyFragment, List.length_set, List.length_append,
    List.length_replicate]
  omega

lemma getD_append_replicate_empty (l : List ToolCallInfo) (n i : Nat) :
    (l ++ List.replicate n emptyToolCall).getD i emptyToolCall =
      l.getD i emptyToolCall := by
  rw [List.getD_eq_getElem?_getD, List.getD_eq_getElem?_getD,
    List.getElem?_append]
  split
  · rfl
  · rename_i hge
    rw [List.getElem?_replicate, List.getElem?_eq_none (by omega)]
    split <;> rfl

lemma getD_applyFragment (ti : List ToolCallInfo) (f : ToolFragment) (i : Nat) :
    (applyFragment ti f).getD i emptyToolCall =
      if i = f.index then applyPieces (ti.getD f.index emptyToolCall) f
      else ti.getD i emptyToolCall := by
  have hidx : f.index <
      (ti ++ List.replicate (f.index + 1 - ti.length) emptyToolCall).length := by
    simp only [List.length_append, List.length_replicate]; omega
  simp only [applyFragment]
  rw [List.getD_eq_getElem?_getD, List.getElem?_set]
  by_cases hif : f.index = i
  · rw [if_pos hif, if_pos hidx, if_pos hif.symm, Option.getD_some]
    congr 1
    exact getD_append_replicate_empty ti _ f.index
  · rw [if_neg hif, if_neg (fun hh => hif hh.symm),
      ← List.getD_eq_getElem?_getD]
    exact getD_append_replicate_empty ti _ i

lemma foldl_applyFragment_getD (frags : List ToolFragment) (i : Nat) :
    ∀ ti : List ToolCallInfo,
      (frags.foldl applyFragment ti).getD i emptyToolCall =
        (fragmentsAt frags i).foldl applyPieces (ti.getD i emptyToolCall) := by
  induction frags with
  | nil => intro ti; rfl
  | cons f fs ih =>
      intro ti
      simp only [List.foldl_cons]
      rw [ih]
      unfold fragmentsAt
      rw [List.filter_cons]
      by_cases hf : f.index = i
      · rw [if_pos (by simp [hf])]
        simp only [List.foldl_cons]
        rw [getD_applyFragment, if_pos hf.symm, hf]
      · rw [if_neg (by simp [hf])]
        rw [getD_applyFragment, if_neg (fun hh => hf hh.symm)]

lemma foldl_max_from (frags : List ToolFragment) :
    ∀ a : Nat,
      frags.foldl (fun n f => max n (f.index + 1)) a =
        max a (maxIndexBound frags) := by
  induction frags with
  | nil => intro a; simp [maxIndexBound]
  | cons f fs ih =>
      intro a
      simp only [List.foldl_cons]
      rw [ih]
      have hc : maxIndexBound (f :: fs) = max (f.index + 1) (maxIndexBound fs) := by
        show fs.foldl (fun n g => max n (g.index + 1)) (max 0 (f.index + 1)) = _
        rw [ih]
        simp
      rw [hc]
      omega

lemma maxIndexBound_cons (f : ToolFragment) (fs : List ToolFragment) :
    maxIndexBound (f :: fs) = max (f.index + 1) (maxIndexBound fs) := by
  show fs.foldl (fun n g => max n (g.index + 1)) (max 0 (f.index + 1)) = _
  rw [foldl_max_from]
  simp

lemma length_foldl_applyFragment (frags : List ToolFragment) :
    ∀ ti : List ToolCallInfo,
      (frags.foldl applyFragment ti).length =
        max ti.length (maxIndexBound frags) := by
  induction frags with
  | nil => intro ti; simp [maxIndexBound]
  | cons f fs ih =>
      intro ti
      simp only [List.foldl_cons]
      rw [ih, length_applyFragment, maxIndexBound_cons]
      omega

lemma index_lt_maxIndexBound {f : ToolFragment} {frags : List ToolFragment}
    (h : f ∈ frags) : f.index < maxIndexBound frags := by
  induction frags with
  | nil => cases h
  | cons g gs ih =>
      rw [maxIndexBound_cons]
      rcases List.mem_cons.mp h with rfl | h2
      · omega
      · have := ih h2; omega

lemma maxIndexBound_concat (l : List ToolFragment) (x : ToolFragment) :
    maxIndexBound (l ++ [x]) = max (maxIndexBound l) (x.index + 1) :=
  List.foldl_concat _ _ _ _

lemma maxIndexBound_range_map (g : Nat → ToolFragment)
    (hg : ∀ j, (g j).index = j) :
    ∀ n : Nat, maxIndexBound ((List.range n).map g) = n := by
  intro n
  induction n with
  | zero => simp [maxIndexBound]
  | succ n ih =>
      rw [List.range_succ, List.map_append, List.map_cons, List.map_nil,
        maxIndexBound_concat, ih, hg]
      omega

lemma maxIndexBound_singlePiece (frags : List ToolFragment) :
    maxIndexBound (singlePieceDelivery frags) = maxIndexBound frags := by
  unfold singlePieceDelivery
  rw [maxIndexBound_range_map]
  intro j; rfl

lemma filter_range_eq (i : Nat) :
    ∀ n : Nat, (List.range n).filter (fun j => j = i) =
      if i < n then [i] else [] := by
  intro n
  induction n with
  | zero => simp
  | succ n ih =>
      rw [List.range_succ, List.filter_append, ih]
      by_cases h : i < n
      · rw [if_pos h, if_pos (by omega)]
        simp [show ¬ (n = i) by omega]
      · by_cases h2 : i = n
        · subst h2
          rw [if_neg h, if_pos (by omega)]
          simp
        · rw [if_neg h, if_neg (by omega)]
          simp [show ¬ (n = i) by omega]

lemma fragmentsAt_singlePiece (frags : List ToolFragment) (i : Nat) :
    fragmentsAt (singlePieceDelivery frags) i =
      if i < maxIndexBound frags then
        [⟨i, fieldConcat ((fragmentsAt frags i).map (fun f => f.id)),
            fieldConcat ((fragmentsAt frags i).map (fun f => f.name)),
            fieldConcat ((fragmentsAt frags i).map (fun f => f.arguments))⟩]
      else [] := by
  rw [show fragmentsAt (singlePieceDelivery frags) i =
    (singlePieceDelivery frags).filter (fun f => f.index = i) from rfl]
  unfold singlePieceDelivery
  rw [List.filter_map]
  rw [show ((fun f : ToolFragment => decide (f.index = i)) ∘ (fun j =>
      (⟨j, fieldConcat ((fragmentsAt frags j).map (fun f => f.id)),
          fieldConcat ((fragmentsAt frags j).map (fun f => f.name)),
          fieldConcat ((fragmentsAt frags j).map (fun f => f.arguments))⟩ :
        ToolFragment))) = fun j => decide (j = i) from by funext j; rfl]
  rw [filter_range_eq]
  split <;> simp

/-- C5.  Reassembling a fragment sequence with the accumulator yields exactly
what the equivalent single-piece delivery (one fragment per index carrying
the fully concatenated id, name and arguments text) would yield. -/
theorem accumulate_eq_single_piece (frags : List ToolFragment) :
    accumulate_tool_calls frags =
      accumulate_tool_calls (singlePieceDelivery frags) := by
  have hlen : (accumulate_tool_calls frags).length = maxIndexBound frags := by
    unfold accumulate_tool_calls
    rw [length_foldl_applyFragment]
    simp
  have hlen2 : (accumulate_tool_calls (singlePieceDelivery frags)).length =
      maxIndexBound frags := by
    unfold accumulate_tool_calls
    rw [length_foldl_applyFragment, maxIndexBound_singlePiece]
    simp
  apply List.ext_getElem (by rw [hlen, hlen2])
  intro n h1 h2
  have hd1 : (accumulate_tool_calls frags)[n] =
      (accumulate_tool_calls frags).getD n emptyToolCall := by
    rw [List.getD_eq_getElem?_getD, List.getElem?_eq_getElem h1]; rfl
  have hd2 : (accumulate_tool_calls (singlePieceDelivery frags))[n] =
      (accumulate_tool_calls (singlePieceDelivery frags)).getD n
        emptyToolCall := by
    rw [List.getD_eq_getElem?_getD, List.getElem?_eq_getElem h2]; rfl
  rw [hd1, hd2]
  unfold accumulate_tool_calls
  rw [foldl_applyFragment_getD, foldl_applyFragment_getD]
  have hn : n < maxIndexBound frags := by rw [hlen] at h1; exact h1
  rw [fragmentsAt_singlePiece, if_pos hn]
  simp only [List.foldl_cons, List.foldl_nil]
  rw [foldl_applyPieces_eq, applyPieces_fields]

/-- C4.  The claim is the source's evident intent, but the code slips: after
a `json.loads` failure on the FIRST accumulated call the `except` branch
reads the still-unbound locals `tool_name` / `tool_call_id`, so the
resulting `UnboundLocalError` escapes and aborts the whole batch (first
conjunct).  For a LATER call the same failure is recorded, but under the
previous call's id (second conjunct). -/
theorem first_call_parse_failure_aborts_batch :
    execute_batch (fun _ _ => Except.ok "5")
        (fun _ => Except.error "Expecting value: line 1 column 1 (char 0)")
        [⟨"call_1", "add", "\x7bbad"⟩] = Except.error () ∧
    execute_batch (fun _ _ => Except.ok "5")
        (fun s => if s = "\x7b\"a\":2,\"b\":3\x7d"
          then Except.ok (Json.obj [("a", Json.num 2), ("b", Json.num 3)])
          else Except.error "Expecting value")
        [⟨"call_1", "add", "\x7b\"a\":2,\"b\":3\x7d"⟩, ⟨"call_2", "add", "\x7bbad"⟩] =
      Except.ok ([⟨"call_1", "add", "\x7b\"a\":2,\"b\":3\x7d"⟩],
        [Msg.tool "call_1" "5",
         Msg.tool "call_1" (tool_error_content "Expecting value")]) :=
  ⟨rfl, rfl⟩

end GorAI
